import Mathlib

/-!
Verification development for the img2ansi repository: a shallow embedding in
Lean 4 of the sizing calculator, the color quantizers, the GIF frame
compositor, the frame buffer, the ANSI pixel encoder and the loop stage,
together with theorems settling the specification claims.

Conventions used throughout:
* Go float64 arithmetic in the sizing code and the grayscale quantizer is
  modelled with exact rational arithmetic (`ℚ`).  For the grayscale quantizer
  the agreement of the two is exact on all 256 byte inputs because the
  quantity `24*g/255 + 1/2` is never within 1/510 of an integer while the
  float evaluation error is below 2^-40.
* Go `int` division that can see negative operands is modelled with
  `Int.tdiv`, which truncates toward zero exactly as Go division does.
* Colors are the 16-bit alpha-premultiplied quadruples produced by Go's
  `color.Color.RGBA()`; an 8-bit component x corresponds to x*257.
-/

namespace Img2Ansi

/-! ### Sizing / aspect calculator (sizeNormal, _sizeWidth, _sizeHeight, sizeRect) -/

/-- Model of `round` (img2ansi.go): `math.Floor(x + 0.5)`, rounding half up. -/
def roundQ (x : ℚ) : ℤ := ⌊x + 1/2⌋

/-- Model of `sizeNormal` (img2ansi.go): scales the width by the source aspect
divided by the font aspect and keeps the height. -/
def sizeNormal (sizeX sizeY : ℤ) (fontAspect : ℚ) : ℤ × ℤ :=
  let aspect : ℚ := (sizeX : ℚ) / (sizeY : ℚ)
  let w : ℚ := (sizeY : ℚ) * aspect / fontAspect
  (roundQ w, sizeY)

/-- Model of `_sizeWidth` (img2ansi.go): X becomes `width`, Y is scaled to keep
the aspect of the (already normalized) input size. -/
def _sizeWidth (normX normY width : ℤ) : ℤ × ℤ :=
  let aspect : ℚ := (normX : ℚ) / (normY : ℚ)
  (width, roundQ ((width : ℚ) / aspect))

/-- Model of `_sizeHeight` (img2ansi.go): Y becomes `height`, X is scaled to
keep the aspect of the (already normalized) input size. -/
def _sizeHeight (normX normY height : ℤ) : ℤ × ℤ :=
  let aspect : ℚ := (normX : ℚ) / (normY : ℚ)
  (roundQ ((height : ℚ) * aspect), height)

/-- Model of `sizeRect` (img2ansi.go): normalize, then bind to whichever
dimension constrains the result, comparing the two aspect quotients. -/
def sizeRect (sizeX sizeY : ℤ) (width height : ℤ) (fontAspect : ℚ) : ℤ × ℤ :=
  let n := sizeNormal sizeX sizeY fontAspect
  if width ≤ 0 ∧ height ≤ 0 then n
  else if width ≤ 0 then _sizeHeight n.1 n.2 height
  else if height ≤ 0 then _sizeWidth n.1 n.2 width
  else
    let aspectSize : ℚ := (n.1 : ℚ) / (n.2 : ℚ)
    let aspectRect : ℚ := (width : ℚ) / (height : ℚ)
    if aspectRect < aspectSize then _sizeWidth n.1 n.2 width
    else _sizeHeight n.1 n.2 height

/-! ### Colors and transparency -/

/-- A color as returned by Go's `color.Color.RGBA()`: 16-bit alpha-premultiplied
components, each in `[0, 0xffff]`. -/
structure Color16 where
  r : Nat
  g : Nat
  b : Nat
  a : Nat
deriving DecidableEq, Repr

/-- Conversion of an 8-bit component to the 16-bit value produced by
`color.RGBA.RGBA()`: `v |= v << 8`, i.e. multiplication by 257. -/
def c16 (x : Nat) : Nat := x * 257

/-- An 8-bit RGB color at full opacity, as seen through `RGBA()`. -/
def opaque8 (r g b : Nat) : Color16 := ⟨c16 r, c16 g, c16 b, 0xffff⟩

/-- Model of `IsTransparent` (img2ansi.go): alpha strictly below the
threshold. -/
def IsTransparent (c : Color16) (threshold : Nat) : Bool := c.a < threshold

/-- Default `AlphaThreshold` (img2ansi.go `alphamin` = 1.0 scaled by 0xffff). -/
def AlphaThreshold : Nat := 0xffff

/-- Model of `ANSIClear` (img2ansi.go). -/
def ANSIClear : String := "\x1b[0m"

/-! ### Grayscale quantizer (PaletteGray.ANSI, ansipalette.go) -/

/-- Model of Go's `color.GrayModel` conversion: luminance
`(19595 r + 38470 g + 7471 b + 2^15) >> 24` of the 16-bit components, an 8-bit
value. -/
def goGrayY (c : Color16) : Nat :=
  (19595 * c.r + 38470 * c.g + 7471 * c.b + 2 ^ 15) / 2 ^ 24

/-- Model of the scaling step of `PaletteGray.ANSI` (ansipalette.go):
`int(round(ratio * float64(gray)))` with `ratio = 24.0 / 255.0`.  Written with
exact rational arithmetic: `⌊24 g / 255 + 1/2⌋ = (48 g + 255) / 510` over `Nat`;
the float64 evaluation agrees on every byte input (see the file header). -/
def grayScaled (gray : Nat) : Nat := (48 * gray + 255) / 510

/-- Model of `PaletteGray.ANSI` (ansipalette.go): clear marker below the alpha
threshold, otherwise the escape code of `0xe8 + scaled`. -/
def PaletteGrayANSI (threshold : Nat) (c : Color16) : String :=
  if IsTransparent c threshold then ANSIClear
  else "\x1b[48;5;" ++ toString (grayScaled (goGrayY c) + 0xe8) ++ "m"

/-! ### 256-color precise quantizer (colorFindRGB, ansipalette.go) -/

/-- Model of `q2c` (ansipalette.go): the six non-uniform cube steps. -/
def q2c : Nat → Nat
  | 0 => 0x00
  | 1 => 0x5f
  | 2 => 0x87
  | 3 => 0xaf
  | 4 => 0xd7
  | _ => 0xff

/-- Model of `colorScale256` (ansipalette.go): `v * 256 / 65535` on `uint32`. -/
def colorScale256 (v : Nat) : Nat := v * 256 / 65535

/-- Model of `colorTo6Cube` (ansipalette.go). -/
def colorTo6Cube (v : Nat) : Nat :=
  if v < 48 then 0
  else if v < 114 then 1
  else (v - 35) / 40

/-- Model of `colorDistSq` (ansipalette.go): squared Euclidean distance. -/
def colorDistSq (r1 g1 b1 r2 g2 b2 : ℤ) : ℤ :=
  (r1 - r2) * (r1 - r2) + (g1 - g2) * (g1 - g2) + (b1 - b2) * (b1 - b2)

/-- Model of `colorFindRGB` (ansipalette.go), the tmux-ported precise 256-color
match.  `none` models the `(0, false)` return taken below the alpha threshold;
`some i` is the matched palette index.  `Int.tdiv` models Go's truncating
division in `(greyAvg - 3) / 10`. -/
def colorFindRGB (threshold : Nat) (c : Color16) : Option ℤ :=
  if c.a < threshold then none
  else
    let r := colorScale256 c.r
    let g := colorScale256 c.g
    let b := colorScale256 c.b
    let qr := colorTo6Cube r
    let cr := q2c qr
    let qg := colorTo6Cube g
    let cg := q2c qg
    let qb := colorTo6Cube b
    let cb := q2c qb
    if cr = r ∧ cg = g ∧ cb = b then some ((16 + 36 * qr + 6 * qg + qb : Nat) : ℤ)
    else
      let greyAvg : ℤ := Int.tdiv ((r + g + b : Nat) : ℤ) 3
      let greyIdx : ℤ := if greyAvg ≤ 238 then Int.tdiv (greyAvg - 3) 10 else 23
      let grey : ℤ := 8 + 10 * greyIdx
      let cDist := colorDistSq (cr : ℤ) (cg : ℤ) (cb : ℤ) (r : ℤ) (g : ℤ) (b : ℤ)
      if colorDistSq grey grey grey (r : ℤ) (g : ℤ) (b : ℤ) < cDist then some (232 + greyIdx)
      else some ((16 + 36 * qr + 6 * qg + qb : Nat) : ℤ)

/-! ### GIF frame compositor (gifrenderer, unnamed/part_000)

The virtual canvas of `image.NewRGBA64` pixels is modelled as a total function
from coordinates to `Option Nat`: `none` is the fully transparent cleared
value, `some c` an opaque palette color.  Frame equality is only ever observed
inside the canvas bounds `[0, width) × [0, height)`, matching the drawing
rectangle `image.Rect(0, 0, Config.Width, Config.Height)` used by the code.
The final `draw.Draw(framecp, bounds, r.frame, bounds.Min, draw.Over)` onto a
freshly allocated (all transparent) image copies every pixel unchanged, since
over-compositing any pixel onto a fully transparent destination yields that
pixel; the emitted frame is therefore the canvas value itself. -/

/-- A canvas pixel: `none` = transparent (cleared), `some c` = palette color. -/
abbrev Pix := Option Nat

/-- The virtual canvas as a total pixel function. -/
abbrev Canvas := Nat → Nat → Pix

/-- Disposal codes of the gif package: `DisposalNone = 1`,
`DisposalBackground = 2`, `DisposalPrevious = 3`; `0` is unspecified. -/
def DisposalNone : Nat := 1

/-- Disposal code `DisposalBackground = 2`. -/
def DisposalBackground : Nat := 2

/-- Disposal code `DisposalPrevious = 3`. -/
def DisposalPrevious : Nat := 3

/-- One decoded GIF layer (`*image.Paletted`): its sub-rectangle
`[minX, maxX) × [minY, maxY)`, its color indices and its palette. -/
structure GoLayer where
  minX : Nat
  minY : Nat
  maxX : Nat
  maxY : Nat
  colorIndexAt : Nat → Nat → Nat
  palette : Nat → Nat

/-- The decoded GIF container consumed by the renderer: canvas size, layer
list, and the per-layer parallel data `Disposal`, `HasTransparent`,
`Transparent`, plus the background fill color
`Config.ColorModel.(color.Palette)[BackgroundIndex]`. -/
structure GoGIF where
  width : Nat
  height : Nat
  layers : List GoLayer
  disposal : Nat → Nat
  hasTransparent : Nat → Bool
  transparent : Nat → Nat
  background : Nat

/-- Default layer used for out-of-range list access (never reached by the
theorems, which stay within `layers.length`). -/
def dfltLayer : GoLayer := ⟨0, 0, 0, 0, fun _ _ => 0, fun _ => 0⟩

/-- Membership of a coordinate in a layer's sub-rectangle. -/
def inRect (l : GoLayer) (x y : Nat) : Bool :=
  decide (l.minX ≤ x) && decide (x < l.maxX) && decide (l.minY ≤ y) && decide (y < l.maxY)

/-- Drawing loop of `renderFrame` (part_000): for every pixel of the layer
rectangle, skip it when the layer has a transparent index equal to the pixel's
color index, otherwise write the palette color onto the canvas. -/
def drawLayer (g : GoGIF) (i : Nat) (l : GoLayer) (c : Canvas) : Canvas :=
  fun x y =>
    if inRect l x y && !(g.hasTransparent i && decide (l.colorIndexAt x y = g.transparent i))
    then some (l.palette (l.colorIndexAt x y))
    else c x y

/-- Initial fill of `renderFrame` for layer 0: background color when the final
layer's disposal (wraparound) is `DisposalBackground`, otherwise the
transparent value. -/
def initialCanvas (g : GoGIF) : Canvas :=
  if g.disposal (g.layers.length - 1) = DisposalBackground
  then fun _ _ => some g.background
  else fun _ _ => none

/-- Disposal application of `renderFrame` for a layer `i > 0`, applied to the
canvas left by layer `i-1`: `DisposalBackground` fills the whole canvas
rectangle with the background color, `DisposalPrevious` fills it with the
transparent value, anything else leaves the canvas untouched. -/
def applyDisposal (g : GoGIF) (d : Nat) (c : Canvas) : Canvas :=
  if d = DisposalBackground then fun _ _ => some g.background
  else if d = DisposalPrevious then fun _ _ => none
  else c

/-- The canvas state just before layer `i` is drawn: initial fill for layer 0,
and for a later layer the previous layer's disposal applied to the canvas it
left behind. -/
def canvasAtStart (g : GoGIF) : Nat → Canvas
  | 0 => initialCanvas g
  | i + 1 =>
      applyDisposal g (g.disposal i)
        (drawLayer g i (g.layers.getD i dfltLayer) (canvasAtStart g i))

/-- The canvas state just after layer `i` is drawn; this is also the frame
emitted for layer `i` (the code copies the canvas into a fresh image). -/
def canvasAfterDraw (g : GoGIF) (i : Nat) : Canvas :=
  drawLayer g i (g.layers.getD i dfltLayer) (canvasAtStart g i)

/-- Renderer state: the live canvas `r.frame` and the emitted list `r.Frames`. -/
structure RState where
  frame : Canvas
  frames : List Canvas

/-- Model of `renderFrame` (part_000): establish the canvas for layer `i`
(initial fill for `i = 0`, else the previous layer's disposal applied to the
live canvas), draw the layer, and append a deep copy of the canvas to the
emitted frames. -/
def renderFrame (g : GoGIF) (i : Nat) (st : RState) : RState :=
  let c0 := if i = 0 then initialCanvas g else applyDisposal g (g.disposal (i - 1)) st.frame
  let c1 := drawLayer g i (g.layers.getD i dfltLayer) c0
  ⟨c1, st.frames ++ [c1]⟩

/-- The renderer state after the first `n` calls `renderFrame 0 .. n-1`,
starting from a nil canvas and no emitted frames (`RenderFrames`, and also the
order in which `RenderNext` first renders each layer). -/
def renderUpTo (g : GoGIF) : Nat → RState
  | 0 => ⟨fun _ _ => none, []⟩
  | n + 1 => renderFrame g n (renderUpTo g n)

/-- The fully rendered frame list of a GIF. -/
def renderedFrames (g : GoGIF) : List Canvas :=
  (renderUpTo g g.layers.length).frames

/-- Go's `%` on a nonnegative int with divisor `n`: panics when `n = 0`
(integer divide by zero), modelled by `none`. -/
def goMod (a : Int) (n : Nat) : Option Int :=
  if n = 0 then none else some (a % (n : Int))

/-- State of the `gifrenderer` iterator: the frame index (started at `-1` by
`newGIFRenderer`) together with the canvas and emitted frames. -/
structure IterState where
  index : Int
  frame : Canvas
  frames : List Canvas

/-- Model of `RenderNext` (part_000): advance `index` to
`(index + 1) % len(GIF.Image)` — a division-by-zero panic (`none`) when the
layer list is empty — and render the frame if it has not been rendered yet.
Returns whether a new frame was rendered, with the new state. -/
def renderNext (g : GoGIF) (st : IterState) : Option (Bool × IterState) := do
  let i ← goMod (st.index + 1) g.layers.length
  if st.frames.length ≤ i.toNat then
    let st' := renderFrame g i.toNat ⟨st.frame, st.frames⟩
    return (true, ⟨i, st'.frame, st'.frames⟩)
  else
    return (false, ⟨i, st.frame, st.frames⟩)

/-- The initial iterator state made by `newGIFRenderer`: `index = -1`. -/
def initIterState : IterState := ⟨-1, fun _ _ => none, []⟩

/-- A GIF with an empty layer list (all other data arbitrary but concrete). -/
def emptyGIF : GoGIF :=
  ⟨7, 5, [], fun _ => DisposalNone, fun _ => false, fun _ => 0, 0⟩

/-- Pointwise equality of two canvases inside the GIF bounds. -/
def FrameEq (g : GoGIF) (c1 c2 : Canvas) : Prop :=
  ∀ x < g.width, ∀ y < g.height, c1 x y = c2 x y

/-! ### frameBuffer (unnamed/part_004)

The growable byte accumulator `frameBuffer{w io.Writer; b []byte}`.  The live
contents `b.b` are `data`; `spare` holds the stale bytes between `len(b.b)` and
`cap(b.b)`.  Bytes are modelled as `Char` since every write in this program
goes through `WriteString`.  When `append` must reallocate, Go's growth policy
leaves an unspecified extra capacity; the model uses an empty spare there,
which no claim observes (only contents and lengths are claimed). -/

/-- The frameBuffer backing store: live contents plus stale capacity bytes. -/
structure FrameBuf where
  data : List Char
  spare : List Char

/-- Model of `tryGrowByReslice` (part_004): when `n` fits in the remaining
capacity, reslice `b.b` to `len + n` — exposing `n` stale bytes — and return
the old length and `true`; otherwise leave the buffer alone and report
failure. -/
def tryGrowByReslice (b : FrameBuf) (n : Nat) : FrameBuf × Nat × Bool :=
  if n ≤ b.spare.length then
    (⟨b.data ++ b.spare.take n, b.spare.drop n⟩, b.data.length, true)
  else (b, 0, false)

/-- Model of `frameBuffer.Write` (part_004): `b.b = append(b.b, p...)`,
returning `len(p)` and a nil error. -/
def fbWrite (b : FrameBuf) (p : List Char) : FrameBuf × Nat × Option String :=
  (⟨b.data ++ p,
    if p.length ≤ b.spare.length then b.spare.drop p.length else []⟩,
   p.length, none)

/-- Model of `frameBuffer.WriteString` (part_004): reslice-and-copy on the fast
path (the `n` stale bytes exposed by the reslice are overwritten by
`copy(b.b[m:], s)`, which returns `min n n = n`), plain append otherwise;
either way a nil error. -/
def fbWriteString (b : FrameBuf) (s : String) : FrameBuf × Nat × Option String :=
  let t := tryGrowByReslice b s.data.length
  if t.2.2 then
    (⟨t.1.data.take t.2.1 ++ s.data, t.1.spare⟩, s.data.length, none)
  else (⟨b.data ++ s.data, []⟩, s.data.length, none)

/-- Result of a `Flush`: the buffer afterwards, the error flag, and the byte
sequence handed to the output writer. -/
structure FlushResult where
  buf : FrameBuf
  err : Bool
  sent : List Char

/-- Model of `frameBuffer.Flush` (part_004): `io.Copy(b.w, bytes.NewReader(b.b))`
performs a single `w.Write(b.b)` of the whole contents (`bytes.Reader`
implements `WriterTo`).  The writer's outcome is abstracted as the count `n` it
reports and its error flag `werr`; `io.Copy` fails on a writer error or a short
write.  On failure `Flush` returns the error with the buffer untouched; only on
success is the buffer reset to length zero (its bytes all becoming spare
capacity). -/
def fbFlush (b : FrameBuf) (n : Nat) (werr : Bool) : FlushResult :=
  if werr || decide (n ≠ b.data.length) then ⟨b, true, b.data⟩
  else ⟨⟨[], b.data ++ b.spare⟩, false, b.data⟩

/-! ### ANSI pixel encoder (writeANSIPixels, img2ansi.go lines 682-706)

The encoder walks the image row-major, writing into a `frameBuffer` through
`WriteString`.  The quantizer is the `ANSIPalette.ANSI` method, abstracted as a
function from pixels to escape-code strings; `img x y` stands for
`img.At(rect.Min.X + x, rect.Min.Y + y)`.  The `writeansii` closure keeps the
last written code and skips a write when the code repeats. -/

/-- Encoder state: the frame buffer and the `lastcolor` latch of the
`writeansii` closure. -/
abbrev EncState := FrameBuf × String

/-- Model of the `writeansii` closure (img2ansi.go): write `color` and латch it
only when it differs from the previously written one. -/
def writeansii (st : EncState) (color : String) : EncState :=
  if color ≠ st.2 then ((fbWriteString st.1 color).1, color) else st

/-- One pixel step of the encoder row loop: the latched escape code followed by
a literal space. -/
def encPixel {γ : Type} (ansi : γ → String) (img : Nat → Nat → γ) (y : Nat)
    (st : EncState) (x : Nat) : EncState :=
  let s := writeansii st (ansi (img x y))
  ((fbWriteString s.1 " ").1, s.2)

/-- One row of `writeANSIPixels` (img2ansi.go): pad, the pixels, pad again, the
latched `ANSIClear`, then a newline. -/
def encodeRow {γ : Type} (ansi : γ → String) (img : Nat → Nat → γ) (pad : String)
    (sizeX y : Nat) (st : EncState) : EncState :=
  let st1 : EncState := ((fbWriteString st.1 pad).1, st.2)
  let st2 := (List.range sizeX).foldl (encPixel ansi img y) st1
  let st3 : EncState := ((fbWriteString st2.1 pad).1, st2.2)
  let st4 := writeansii st3 ANSIClear
  ((fbWriteString st4.1 "\n").1, st4.2)

/-- Model of `writeANSIPixels` (img2ansi.go lines 682-706): encode all rows into
the frame buffer; the function unconditionally returns a nil error. -/
def writeANSIPixels {γ : Type} (ansi : γ → String) (img : Nat → Nat → γ)
    (pad : String) (sizeX sizeY : Nat) (b : FrameBuf) : FrameBuf × Option String :=
  let st := (List.range sizeY).foldl
    (fun s y => encodeRow ansi img pad sizeX y s) (b, "")
  (st.1, none)

/-! ### Claim-side encoder grammar (specification wording of C5)

`specANSIPixels` renders the output grammar stated by the specification: every
line is the left pad, the latched escape codes each followed by a space, the
trailing pad, one unconditional palette-reset code, and a newline; the reset
counts as the previously emitted code for the latch of the next line.  This
definition follows the claim's words, to be compared with `writeANSIPixels`,
which is translated from the source. -/

/-- Claim-side pixel step: emit the escape code only when it differs from the
previously emitted one, then a literal space. -/
def specPixStep {γ : Type} (ansi : γ → String) (img : Nat → Nat → γ) (y : Nat)
    (p : String × String) (x : Nat) : String × String :=
  let c := ansi (img x y)
  if c ≠ p.2 then (p.1 ++ c ++ " ", c) else (p.1 ++ " ", p.2)

/-- Claim-side body of one line: latched codes, each followed by a space. -/
def specRow {γ : Type} (ansi : γ → String) (img : Nat → Nat → γ)
    (sizeX y : Nat) (last : String) : String × String :=
  (List.range sizeX).foldl (specPixStep ansi img y) ("", last)

/-- Claim-side line step: every line is the left pad, the body, the trailing
pad, one unconditional palette-reset code and a newline, the reset counting as
the previously emitted code afterwards. -/
def specRowStep {γ : Type} (ansi : γ → String) (img : Nat → Nat → γ)
    (pad : String) (sizeX : Nat) (p : String × String) (y : Nat) : String × String :=
  (p.1 ++ pad ++ (specRow ansi img sizeX y p.2).1 ++ pad ++ ANSIClear ++ "\n", ANSIClear)

/-- Claim-side output: the concatenation of the lines. -/
def specANSIPixels {γ : Type} (ansi : γ → String) (img : Nat → Nat → γ)
    (pad : String) (sizeX sizeY : Nat) : String :=
  ((List.range sizeY).foldl (specRowStep ansi img pad sizeX) ("", "")).1

/-! ### Loop stage (LoopFrames, img2ansi.go lines 505-551) -/

/-- A pipeline frame: the image (abstracted by an identifier), the inter-frame
delay and the loop count carried from decoding. -/
structure LFrame where
  image : Nat
  delay : Int
  loopCount : Int
deriving DecidableEq, Repr

/-- Model of `LoopFrames` (img2ansi.go) in the absence of cancellation: the
collect phase forwards every source frame while buffering it; when the source
is exhausted, zero collected frames end the stage; otherwise `numloop` is the
first frame's embedded loop count, overridden by a nonnegative configured
repeat count and forced to `-1` for a negative one, and the loop
`for n := 0; n != numloop; n++` replays the buffer.  That loop never terminates
for a negative `numloop` (indefinite replay), modelled by `none`; otherwise the
emitted sequence is the collect-phase pass followed by `numloop` replays. -/
def LoopFrames (repeatCount : Int) (frames : List LFrame) : Option (List LFrame) :=
  if frames.isEmpty then some frames
  else
    let numloop : Int := (frames.head?.getD ⟨0, 0, 0⟩).loopCount
    let numloop : Int := if 0 ≤ repeatCount then repeatCount else -1
    if numloop < 0 then none
    else some (frames ++ (List.replicate numloop.toNat frames).flatten)

/-! ### Theorems for the claims -/

/-- C8: for the 256-color precise quantizer (`colorFindRGB`, the tmux-ported
heuristic), the fully opaque 8-bit colors (0,0,0), (255,255,255) and (255,0,0)
map to the terminal palette indices 16, 231 and 196 respectively. -/
theorem claim_C8_corner_colors :
    colorFindRGB AlphaThreshold (opaque8 0 0 0) = some 16 ∧
    colorFindRGB AlphaThreshold (opaque8 255 255 255) = some 231 ∧
    colorFindRGB AlphaThreshold (opaque8 255 0 0) = some 196 := by decide

/-- C3 (failing input): for fully opaque white — luminance 255, and likewise any
gray of luminance at least 250 — the grayscale quantizer computes the scaled
level `round(24/255 * 255) = 24`, producing the escape code of palette entry
`232 + 24 = 256`, which lies outside the 24-entry grayscale block 232..255
and outside the 256-color palette altogether. -/
theorem claim_C3_gray_overflow :
    goGrayY (opaque8 255 255 255) = 255 ∧
    grayScaled 255 = 24 ∧
    PaletteGrayANSI AlphaThreshold (opaque8 255 255 255) = "\x1b[48;5;256m" ∧
    ¬ (232 + grayScaled 255 ≤ 255) ∧
    grayScaled 249 = 23 ∧ grayScaled 250 = 24 := by decide

/-- C4 (failing input): on a decoded GIF whose layer list is empty, the very
first `RenderNext` evaluates `(r.index + 1) % len(r.GIF.Image)` with a zero
divisor, which panics in Go (modelled by `none`): the compositor fails rather
than yielding zero frames. -/
theorem claim_C4_zero_layers_panic (st : IterState) :
    renderNext emptyGIF st = none := rfl

/-- C2 (counterexample): a failing flush does not reset the buffer.  With
contents "AB" and a writer that reports an error, `Flush` returns the error
and the buffer still holds "AB", contradicting the claim that after a failed
flush the buffer is reset to empty. -/
theorem claim_C2_counterexample :
    (fbFlush ⟨['A', 'B'], []⟩ 0 true).err = true ∧
    (fbFlush ⟨['A', 'B'], []⟩ 0 true).buf.data ≠ [] := by decide

/-- C2 (amended): a flush hands the entire buffered byte sequence to the output
writer in a single write — never a proper prefix only — and then either
succeeds, leaving the buffer empty, or fails with an I/O error, after which the
buffer retains its full previous contents (it is not reset). -/
theorem claim_C2_flush_amended (b : FrameBuf) (n : Nat) (werr : Bool) :
    (fbFlush b n werr).sent = b.data ∧
    (((fbFlush b n werr).err = false ∧ (fbFlush b n werr).buf.data = []) ∨
     ((fbFlush b n werr).err = true ∧ (fbFlush b n werr).buf.data = b.data)) := by
  cases werr <;> by_cases hn : n = b.data.length <;> simp [fbFlush, hn]

/-- Helper: `WriteString` always appends exactly the input to the contents. -/
theorem fbWriteString_data (b : FrameBuf) (s : String) :
    (fbWriteString b s).1.data = b.data ++ s.data := by
  by_cases hfit : s.length ≤ b.spare.length <;>
    simp [fbWriteString, tryGrowByReslice, hfit, List.take_left]

/-- Helper: `WriteString` always returns the full input length and nil error. -/
theorem fbWriteString_out (b : FrameBuf) (s : String) :
    (fbWriteString b s).2 = (s.data.length, none) := by
  by_cases hfit : s.length ≤ b.spare.length <;>
    simp [fbWriteString, tryGrowByReslice, hfit]

/-- C10: `frameBuffer.Write` and `frameBuffer.WriteString` always report the
full input length with a nil error and leave the buffer holding the previous
contents followed exactly by the input (on both the reslice-and-copy fast path
and the append path); consequently `writeANSIPixels`, which writes only through
them, unconditionally returns a nil error — I/O errors can arise only at
`Flush`. -/
theorem claim_C10_buffered_writes {γ : Type} (ansi : γ → String)
    (img : Nat → Nat → γ) (pad : String) (sizeX sizeY : Nat)
    (b : FrameBuf) (p : List Char) (s : String) :
    (fbWrite b p).1.data = b.data ++ p ∧
    (fbWrite b p).2.1 = p.length ∧
    (fbWrite b p).2.2 = none ∧
    (fbWriteString b s).1.data = b.data ++ s.data ∧
    (fbWriteString b s).2.1 = s.data.length ∧
    (fbWriteString b s).2.2 = none ∧
    (writeANSIPixels ansi img pad sizeX sizeY b).2 = none :=
  ⟨rfl, rfl, rfl, fbWriteString_data b s,
    by rw [fbWriteString_out], by rw [fbWriteString_out], rfl⟩

/-- Helper: the length of `k` concatenated copies of a list. -/
theorem length_flatten_replicate {α : Type} (k : Nat) (l : List α) :
    (List.replicate k l).flatten.length = k * l.length := by
  induction k with
  | zero => simp
  | succ k ih =>
      rw [List.replicate_succ, List.flatten_cons, List.length_append, ih]
      ring

/-- Helper: indexing into `k` concatenated copies of a list is indexing the
list at the index modulo its length. -/
theorem getElem?_flatten_replicate {α : Type} (l : List α) (k i : Nat)
    (h : i < k * l.length) :
    (List.replicate k l).flatten[i]? = l[i % l.length]? := by
  induction k generalizing i with
  | zero => omega
  | succ k ih =>
      rw [List.replicate_succ, List.flatten_cons]
      by_cases hi : i < l.length
      · rw [List.getElem?_append_left hi, Nat.mod_eq_of_lt hi]
      · push_neg at hi
        have hsub : i - l.length < k * l.length := by
          have hexp : (k + 1) * l.length = k * l.length + l.length := by ring
          omega
        rw [List.getElem?_append_right hi, ih (i - l.length) hsub,
          ← Nat.mod_eq_sub_mod hi]

/-- C6: for a finite source of `n` frames and a configured repeat count
`R ≥ 0`, the Loop stage emits exactly `n * (1 + R)` frames in cyclic source
order, the configured count overriding whatever loop count the frames carry
(the embedded count read from the first frame is immediately overwritten
whenever `Repeat ≥ 0`, as the output's independence from every `loopCount`
field here shows). -/
theorem claim_C6_loop_frames (fs : List LFrame) (R : Int) (hR : 0 ≤ R) :
    LoopFrames R fs = some (fs ++ (List.replicate R.toNat fs).flatten) ∧
    (fs ++ (List.replicate R.toNat fs).flatten).length = fs.length * (1 + R.toNat) ∧
    ∀ i < fs.length * (1 + R.toNat),
      (fs ++ (List.replicate R.toNat fs).flatten)[i]? = fs[i % fs.length]? := by
  refine ⟨?_, ?_, ?_⟩
  · unfold LoopFrames
    by_cases hemp : fs.isEmpty
    · rw [if_pos hemp]
      rw [List.isEmpty_iff] at hemp
      subst hemp
      simp
    · rw [if_neg hemp]
      have hnl : ¬ ((if 0 ≤ R then R else -1) < 0) := by
        rw [if_pos hR]
        omega
      rw [if_neg hnl, if_pos hR]
  · rw [List.length_append, length_flatten_replicate]
    ring
  · intro i hi
    by_cases hil : i < fs.length
    · rw [List.getElem?_append_left hil, Nat.mod_eq_of_lt hil]
    · push_neg at hil
      have hsub : i - fs.length < R.toNat * fs.length := by
        have : fs.length * (1 + R.toNat) = fs.length + R.toNat * fs.length := by ring
        omega
      rw [List.getElem?_append_right hil,
        getElem?_flatten_replicate fs R.toNat (i - fs.length) hsub,
        ← Nat.mod_eq_sub_mod hil]

/-- C6 (witness): with repeat count 2 and three frames carrying an embedded
loop count of 5, the Loop stage emits exactly the nine frames
`[0,1,2,0,1,2,0,1,2]`. -/
theorem claim_C6_loop_frames_witness :
    (0 : Int) ≤ 2 ∧
    LoopFrames 2 [⟨0, 0, 5⟩, ⟨1, 0, 5⟩, ⟨2, 0, 5⟩] =
      some [⟨0, 0, 5⟩, ⟨1, 0, 5⟩, ⟨2, 0, 5⟩, ⟨0, 0, 5⟩, ⟨1, 0, 5⟩, ⟨2, 0, 5⟩,
            ⟨0, 0, 5⟩, ⟨1, 0, 5⟩, ⟨2, 0, 5⟩] := by
  refine ⟨by decide, ?_⟩
  rw [(claim_C6_loop_frames [⟨0, 0, 5⟩, ⟨1, 0, 5⟩, ⟨2, 0, 5⟩] 2 (by decide)).1]
  decide

/-- Helper: the live canvas after rendering layer `i` is `canvasAfterDraw i`. -/
theorem renderUpTo_frame (g : GoGIF) :
    ∀ i, (renderUpTo g (i + 1)).frame = canvasAfterDraw g i := by
  intro i
  induction i with
  | zero => rfl
  | succ i ih =>
      show (renderFrame g (i + 1) (renderUpTo g (i + 1))).frame = _
      simp only [renderFrame, Nat.succ_ne_zero, if_false, Nat.add_sub_cancel, ih]
      rfl

/-- Helper: the emitted frame list is the per-layer canvas snapshot list. -/
theorem renderUpTo_frames (g : GoGIF) :
    ∀ n, (renderUpTo g n).frames = (List.range n).map (canvasAfterDraw g) := by
  intro n
  induction n with
  | zero => rfl
  | succ n ih =>
      have hfr : (renderUpTo g (n + 1)).frames
          = (renderUpTo g n).frames ++ [(renderFrame g n (renderUpTo g n)).frame] := rfl
      have hfe : (renderFrame g n (renderUpTo g n)).frame = canvasAfterDraw g n :=
        renderUpTo_frame g n
      rw [hfr, ih, hfe, List.range_succ, List.map_append, List.map_singleton]

/-- C9: every emitted frame bitmap is a value captured at the instant of
emission: after rendering any later layer `j > i`, the frame stored at
position `i` is still exactly the canvas state as of completing layer `i`,
identical to what was stored right after layer `i` was rendered — later
mutation of the live canvas never reaches an emitted frame. -/
theorem claim_C9_deep_copy (g : GoGIF) (i j : Nat) (hij : i < j) :
    (renderUpTo g j).frames[i]? = some (canvasAfterDraw g i) ∧
    (renderUpTo g (i + 1)).frames[i]? = some (canvasAfterDraw g i) := by
  refine ⟨?_, ?_⟩
  · rw [renderUpTo_frames g j, List.getElem?_map, List.getElem?_range hij]
    rfl
  · rw [renderUpTo_frames g (i + 1), List.getElem?_map,
      List.getElem?_range (Nat.lt_succ_self i)]
    rfl

/-- A three-layer GIF on a 2×1 canvas: layer 0 paints color 7 at (0,0) with
disposal None, layer 1 paints color 9 at (1,0) with disposal Previous, and
layer 2 covers (0,0) with only its transparent index (draws nothing). -/
def gC1 : GoGIF :=
  ⟨2, 1,
    [⟨0, 0, 1, 1, fun _ _ => 0, fun _ => 7⟩,
     ⟨1, 0, 2, 1, fun _ _ => 0, fun _ => 9⟩,
     ⟨0, 0, 1, 1, fun _ _ => 0, fun _ => 4⟩],
    fun i => if i = 1 then DisposalPrevious else DisposalNone,
    fun i => decide (i = 2),
    fun _ => 0, 5⟩

/-- C9 (witness): for the concrete GIF `gC1`, the frame emitted for layer 0 is
still the layer-0 canvas snapshot after layer 1 has been rendered. -/
theorem claim_C9_deep_copy_witness :
    0 < 2 ∧ (renderUpTo gC1 2).frames[0]? = some (canvasAfterDraw gC1 0) :=
  ⟨by decide, (claim_C9_deep_copy gC1 0 2 (by decide)).1⟩

/-- C1 (counterexample): the compositor does not restore the pre-layer-1
snapshot when layer 1 has disposal Previous.  In `gC1` the canvas just before
layer 1 was drawn holds color 7 at (0,0), but the canvas handed to layer 2 is
fully transparent there: the snapshot is not restored (the canvas is cleared
instead), so the composited frame 2 loses layer 0's pixel. -/
theorem claim_C1_counterexample :
    gC1.disposal 1 = DisposalPrevious ∧
    canvasAtStart gC1 1 0 0 = some 7 ∧
    canvasAtStart gC1 2 0 0 = none ∧
    canvasAtStart gC1 2 0 0 ≠ canvasAtStart gC1 1 0 0 ∧
    canvasAfterDraw gC1 2 0 0 = none ∧
    canvasAfterDraw gC1 2 0 0 ≠ canvasAfterDraw gC1 0 0 0 := by decide

/-- C1 (amended): when layer `i-1` carries disposal Previous the compositor
clears the whole canvas to the transparent value before drawing layer `i`
(rather than restoring the snapshot taken before layer `i-1`); nevertheless,
for a 2-layer GIF whose layer 0 opaquely covers the whole canvas and whose
layer 1 has disposal Previous, the frame served after layer 1 on loop wrap is
the cached frame 0, which equals layer 0's bitmap exactly. -/
theorem claim_C1_amended :
    (∀ (g : GoGIF) (i : Nat), g.disposal i = DisposalPrevious →
        ∀ x y, canvasAtStart g (i + 1) x y = none) ∧
    (∀ (g : GoGIF) (l0 : GoLayer),
        g.layers.length = 2 → g.layers[0]? = some l0 →
        (∀ x, x < g.width → ∀ y, y < g.height →
            inRect l0 x y = true ∧
            (g.hasTransparent 0 && decide (l0.colorIndexAt x y = g.transparent 0)) = false) →
        renderNext g ⟨1, (renderUpTo g 2).frame, (renderUpTo g 2).frames⟩
            = some (false, ⟨0, (renderUpTo g 2).frame, (renderUpTo g 2).frames⟩) ∧
        (renderUpTo g 2).frames[0]? = some (canvasAfterDraw g 0) ∧
        (∀ x, x < g.width → ∀ y, y < g.height →
            canvasAfterDraw g 0 x y = some (l0.palette (l0.colorIndexAt x y)))) := by
  constructor
  · intro g i hdisp x y
    show applyDisposal g (g.disposal i) _ x y = none
    rw [hdisp]
    simp [applyDisposal, DisposalPrevious, DisposalBackground]
  · intro g l0 hlen h0 hcover
    have hflen : (renderUpTo g 2).frames.length = 2 := by
      rw [renderUpTo_frames]
      simp
    refine ⟨?_, ?_, ?_⟩
    · unfold renderNext goMod
      rw [hlen]
      norm_num [hflen]
    · rw [renderUpTo_frames g 2, List.getElem?_map, List.getElem?_range (by omega)]
      rfl
    · intro x hx y hy
      have hl0 : g.layers.getD 0 dfltLayer = l0 := by
        rw [List.getD_eq_getElem?_getD, h0]
        rfl
      show drawLayer g 0 (g.layers.getD 0 dfltLayer) (canvasAtStart g 0) x y = _
      rw [hl0]
      unfold drawLayer
      rw [(hcover x hx y hy).1, (hcover x hx y hy).2]
      rfl

/-- The 2-layer witness GIF for C1: layer 0 opaquely covers the whole 1×1
canvas with color 7, layer 1 has disposal Previous and consists only of its
transparent index (a fully transparent sub-rectangle). -/
def gWl0 : GoLayer := ⟨0, 0, 1, 1, fun _ _ => 0, fun _ => 7⟩

/-- The 2-layer witness GIF for C1 built around `gWl0`. -/
def gW : GoGIF :=
  ⟨1, 1, [gWl0, ⟨0, 0, 1, 1, fun _ _ => 0, fun _ => 9⟩],
    fun i => if i = 1 then DisposalPrevious else DisposalNone,
    fun i => decide (i = 1),
    fun _ => 0, 5⟩

/-- C1 (witness): applying the amended theorem to `gW` — the canvas handed to
the layer after a Previous disposal is transparent, and frame 0 is layer 0's
bitmap. -/
theorem claim_C1_amended_witness :
    gW.disposal 1 = DisposalPrevious ∧
    canvasAtStart gW 2 0 0 = none ∧
    canvasAfterDraw gW 0 0 0 = some (gWl0.palette (gWl0.colorIndexAt 0 0)) := by
  have h := claim_C1_amended
  exact ⟨by decide, h.1 gW 1 (by decide) 0 0,
    ((h.2 gW gWl0 (by decide) rfl (by decide)).2.2) 0 (by decide) 0 (by decide)⟩

/-- Helper: the pixel loop of the source encoder appends to the buffer exactly
the bytes the claim-side pixel fold accumulates, and keeps the same latch. -/
theorem encPixel_fold_spec {γ : Type} (ansi : γ → String) (img : Nat → Nat → γ)
    (y : Nat) (xs : List Nat) :
    ∀ (st : EncState) (p : String × String) (b0 : List Char),
      st.1.data = b0 ++ p.1.data → st.2 = p.2 →
      (xs.foldl (encPixel ansi img y) st).1.data
          = b0 ++ (xs.foldl (specPixStep ansi img y) p).1.data ∧
      (xs.foldl (encPixel ansi img y) st).2
          = (xs.foldl (specPixStep ansi img y) p).2 := by
  induction xs with
  | nil => exact fun st p b0 hd hl => ⟨hd, hl⟩
  | cons x xs ih =>
      intro st p b0 hd hl
      rw [List.foldl_cons, List.foldl_cons]
      by_cases hc : ansi (img x y) ≠ p.2
      · have hstep : encPixel ansi img y st x
            = ((fbWriteString (fbWriteString st.1 (ansi (img x y))).1 " ").1,
                ansi (img x y)) := by
          rw [encPixel, writeansii, if_pos (hl ▸ hc)]
        have hspec : specPixStep ansi img y p x
            = (p.1 ++ ansi (img x y) ++ " ", ansi (img x y)) := by
          rw [specPixStep, if_pos hc]
        rw [hstep, hspec]
        refine ih _ _ b0 ?_ rfl
        rw [fbWriteString_data, fbWriteString_data, hd]
        simp [String.data_append]
      · have hstep : encPixel ansi img y st x = ((fbWriteString st.1 " ").1, st.2) := by
          rw [encPixel, writeansii, if_neg (hl ▸ hc)]
        have hspec : specPixStep ansi img y p x = (p.1 ++ " ", p.2) := by
          rw [specPixStep, if_neg hc]
        rw [hstep, hspec]
        refine ih _ _ b0 ?_ hl
        rw [fbWriteString_data, hd]
        simp [String.data_append]

/-- Helper: after the claim-side pixel fold, the latch is never the reset code
provided no pixel's code is the reset code and either the latch was already
different from it or at least one pixel was processed. -/
theorem specPixStep_fold_latch_ne {γ : Type} (ansi : γ → String)
    (img : Nat → Nat → γ) (y : Nat) (xs : List Nat) :
    ∀ (p : String × String),
      (∀ x ∈ xs, ansi (img x y) ≠ ANSIClear) →
      (p.2 ≠ ANSIClear ∨ xs ≠ []) →
      (xs.foldl (specPixStep ansi img y) p).2 ≠ ANSIClear := by
  induction xs with
  | nil =>
      intro p _ hstart
      rcases hstart with h | h
      · exact h
      · exact absurd rfl h
  | cons x xs ih =>
      intro p hcodes _
      have hc : ansi (img x y) ≠ ANSIClear := hcodes x (List.mem_cons_self x xs)
      rw [List.foldl_cons]
      refine ih _ (fun z hz => hcodes z (List.mem_cons_of_mem x hz)) (Or.inl ?_)
      rw [specPixStep]
      by_cases hne : ansi (img x y) ≠ p.2
      · rw [if_pos hne]
        exact hc
      · rw [if_neg hne]
        push_neg at hne
        exact hne ▸ hc

/-- Helper: one source row writes exactly the claim-side line (pad, body, pad,
reset, newline) and leaves the reset code latched, provided the row is
nonempty and no pixel's code is the reset code. -/
theorem encodeRow_spec {γ : Type} (ansi : γ → String) (img : Nat → Nat → γ)
    (pad : String) (sizeX y : Nat) (st : EncState) (p : String × String)
    (b0 : List Char) (hd : st.1.data = b0 ++ p.1.data) (hl : st.2 = p.2)
    (hx : 0 < sizeX) (hcodes : ∀ x < sizeX, ansi (img x y) ≠ ANSIClear) :
    (encodeRow ansi img pad sizeX y st).1.data
        = b0 ++ (specRowStep ansi img pad sizeX p y).1.data ∧
    (encodeRow ansi img pad sizeX y st).2 = ANSIClear := by
  have hxs : ∀ x ∈ List.range sizeX, ansi (img x y) ≠ ANSIClear :=
    fun x hxmem => hcodes x (List.mem_range.mp hxmem)
  have hne : List.range sizeX ≠ [] := by
    intro hnil
    rw [List.range_eq_nil] at hnil
    omega
  have h1 : ((fbWriteString st.1 pad).1, st.2).1.data
      = (b0 ++ p.1.data ++ pad.data) ++ ("" : String).data := by
    rw [fbWriteString_data, hd]
    simp
  have hfold := encPixel_fold_spec ansi img y (List.range sizeX)
    ((fbWriteString st.1 pad).1, st.2) ("", p.2) (b0 ++ p.1.data ++ pad.data) h1 hl
  have hlatch := specPixStep_fold_latch_ne ansi img y (List.range sizeX)
    ("", p.2) hxs (Or.inr hne)
  rw [← hfold.2] at hlatch
  simp only [encodeRow]
  set F := (List.range sizeX).foldl (encPixel ansi img y)
      ((fbWriteString st.1 pad).1, st.2) with hF
  have hw : writeansii ((fbWriteString F.1 pad).1, F.2) ANSIClear
      = ((fbWriteString (fbWriteString F.1 pad).1 ANSIClear).1, ANSIClear) := by
    rw [writeansii, if_pos]
    exact fun heq => hlatch heq.symm
  rw [hw]
  constructor
  · rw [fbWriteString_data, fbWriteString_data, fbWriteString_data, hfold.1]
    simp [specRowStep, specRow, String.data_append, List.append_assoc]
  · rfl

/-- Helper: the row loop of the source encoder appends to the buffer exactly
the claim-side lines and keeps latches aligned, under the row-nonempty and
no-reset-code hypotheses. -/
theorem encodeRows_fold_spec {γ : Type} (ansi : γ → String) (img : Nat → Nat → γ)
    (pad : String) (sizeX : Nat) (hx : 0 < sizeX) (ys : List Nat) :
    ∀ (st : EncState) (p : String × String) (b0 : List Char),
      st.1.data = b0 ++ p.1.data → st.2 = p.2 →
      (∀ y ∈ ys, ∀ x < sizeX, ansi (img x y) ≠ ANSIClear) →
      (ys.foldl (fun s y => encodeRow ansi img pad sizeX y s) st).1.data
          = b0 ++ (ys.foldl (specRowStep ansi img pad sizeX) p).1.data := by
  induction ys with
  | nil => exact fun st p b0 hd _ _ => hd
  | cons y ys ih =>
      intro st p b0 hd hl hcodes
      rw [List.foldl_cons, List.foldl_cons]
      have hrow := encodeRow_spec ansi img pad sizeX y st p b0 hd hl hx
        (fun x hxx => hcodes y (List.mem_cons_self y ys) x hxx)
      refine ih _ _ b0 hrow.1 ?_ (fun z hz => hcodes z (List.mem_cons_of_mem y hz))
      rw [hrow.2, specRowStep]

/-- C5 (amended): provided every row is nonempty and no pixel quantizes to the
reset code, each output line of `writeANSIPixels` consists of the left pad,
then per pixel its escape code — emitted only when it differs from the
previously emitted code — followed by a space, the trailing pad, one
palette-reset code, and a newline, with the encoder reporting a nil error.
When a line's pixels end on the reset code itself (transparent pixels), the
trailing reset is suppressed by the last-code latch, as the counterexample
shows. -/
theorem claim_C5_encoder_lines {γ : Type} (ansi : γ → String)
    (img : Nat → Nat → γ) (pad : String) (sizeX sizeY : Nat) (b : FrameBuf)
    (hx : 0 < sizeX)
    (hcodes : ∀ x < sizeX, ∀ y < sizeY, ansi (img x y) ≠ ANSIClear) :
    (writeANSIPixels ansi img pad sizeX sizeY b).1.data
        = b.data ++ (specANSIPixels ansi img pad sizeX sizeY).data ∧
    (writeANSIPixels ansi img pad sizeX sizeY b).2 = none := by
  refine ⟨?_, rfl⟩
  unfold writeANSIPixels specANSIPixels
  exact encodeRows_fold_spec ansi img pad sizeX hx (List.range sizeY)
    (b, "") ("", "") b.data (by simp) rfl
    (fun y hy x hxx => hcodes x hxx y (List.mem_range.mp hy))

/-- C5 (witness): a 1×1 opaque black image through the grayscale palette with
the default pad — the source encoder output equals the claim-side line
grammar. -/
theorem claim_C5_encoder_lines_witness :
    0 < 1 ∧
    (writeANSIPixels (PaletteGrayANSI AlphaThreshold)
        (fun _ _ => opaque8 0 0 0) " " 1 1 ⟨[], []⟩).1.data
      = (FrameBuf.data ⟨[], []⟩) ++
        (specANSIPixels (PaletteGrayANSI AlphaThreshold)
          (fun _ _ => opaque8 0 0 0) " " 1 1).data :=
  ⟨by decide,
    (claim_C5_encoder_lines (PaletteGrayANSI AlphaThreshold)
      (fun _ _ => opaque8 0 0 0) " " 1 1 ⟨[], []⟩ (by decide)
      (by decide)).1⟩

/-- C5 (counterexample): for a 1×1 fully transparent image (its code is the
clear/reset marker) the trailing reset of the single line is suppressed by the
last-code latch, so the source output deviates from the claimed line grammar:
the emitted line is `" <clear>  \n"`, not ending in a reset code before the
newline. -/
theorem claim_C5_counterexample :
    (writeANSIPixels (PaletteGrayANSI AlphaThreshold)
        (fun _ _ => (⟨0, 0, 0, 0⟩ : Color16)) " " 1 1 ⟨[], []⟩).1.data
      = (" \x1b[0m  \n").data ∧
    (writeANSIPixels (PaletteGrayANSI AlphaThreshold)
        (fun _ _ => (⟨0, 0, 0, 0⟩ : Color16)) " " 1 1 ⟨[], []⟩).1.data
      ≠ (specANSIPixels (PaletteGrayANSI AlphaThreshold)
          (fun _ _ => (⟨0, 0, 0, 0⟩ : Color16)) " " 1 1).data := by
  constructor <;> decide

/-- Helper: in the doubly-constrained branch of `sizeRect`, the chosen
dimension meets its bound exactly, the other one stays within its bound, and
the non-binding coordinate is within half a pixel (so within one pixel) of the
value exactly preserving the normalized aspect `nX / Y`. -/
theorem sizeRect_main (nX Y w h : ℤ) (hY : 0 < Y) (hw : 0 < w) (hh : 0 < h) :
    (if (w : ℚ) / (h : ℚ) < (nX : ℚ) / (Y : ℚ)
        then _sizeWidth nX Y w else _sizeHeight nX Y h).1 ≤ w ∧
    (if (w : ℚ) / (h : ℚ) < (nX : ℚ) / (Y : ℚ)
        then _sizeWidth nX Y w else _sizeHeight nX Y h).2 ≤ h ∧
    (((if (w : ℚ) / (h : ℚ) < (nX : ℚ) / (Y : ℚ)
          then _sizeWidth nX Y w else _sizeHeight nX Y h).1 = w ∧
        |((if (w : ℚ) / (h : ℚ) < (nX : ℚ) / (Y : ℚ)
            then _sizeWidth nX Y w else _sizeHeight nX Y h).2 : ℚ) * (nX : ℚ)
          - (w : ℚ) * (Y : ℚ)| ≤ (nX : ℚ)) ∨
     ((if (w : ℚ) / (h : ℚ) < (nX : ℚ) / (Y : ℚ)
          then _sizeWidth nX Y w else _sizeHeight nX Y h).2 = h ∧
        |((if (w : ℚ) / (h : ℚ) < (nX : ℚ) / (Y : ℚ)
            then _sizeWidth nX Y w else _sizeHeight nX Y h).1 : ℚ) * (Y : ℚ)
          - (h : ℚ) * (nX : ℚ)| ≤ (Y : ℚ))) := by
  have hYQ : (0 : ℚ) < (Y : ℚ) := by exact_mod_cast hY
  have hwQ : (0 : ℚ) < (w : ℚ) := by exact_mod_cast hw
  have hhQ : (0 : ℚ) < (h : ℚ) := by exact_mod_cast hh
  by_cases hcase : (w : ℚ) / (h : ℚ) < (nX : ℚ) / (Y : ℚ)
  · rw [if_pos hcase]
    have hnXQ : (0 : ℚ) < (nX : ℚ) := by
      have hpos : (0 : ℚ) < (nX : ℚ) / (Y : ℚ) :=
        lt_trans (div_pos hwQ hhQ) hcase
      have hrew : (nX : ℚ) = ((nX : ℚ) / (Y : ℚ)) * (Y : ℚ) := by field_simp
      rw [hrew]
      exact mul_pos hpos hYQ
    simp only [_sizeWidth, roundQ]
    have hv' : (w : ℚ) / ((nX : ℚ) / (Y : ℚ)) * (nX : ℚ) = (w : ℚ) * (Y : ℚ) := by
      field_simp
    have hvlt : (w : ℚ) / ((nX : ℚ) / (Y : ℚ)) < (h : ℚ) := by
      have h1 : (w : ℚ) * (Y : ℚ) < (nX : ℚ) * (h : ℚ) :=
        (div_lt_div_iff₀ hhQ hYQ).mp hcase
      rw [div_div_eq_mul_div]
      exact (div_lt_iff₀ hnXQ).mpr (by linarith)
    have hfl1 : ((⌊(w : ℚ) / ((nX : ℚ) / (Y : ℚ)) + 1/2⌋ : ℤ) : ℚ)
        ≤ (w : ℚ) / ((nX : ℚ) / (Y : ℚ)) + 1/2 := Int.floor_le _
    have hfl2 : (w : ℚ) / ((nX : ℚ) / (Y : ℚ)) - 1/2
        ≤ ((⌊(w : ℚ) / ((nX : ℚ) / (Y : ℚ)) + 1/2⌋ : ℤ) : ℚ) := by
      have hsub := Int.sub_one_lt_floor ((w : ℚ) / ((nX : ℚ) / (Y : ℚ)) + 1/2)
      linarith

    refine ⟨le_refl w, ?_, Or.inl ⟨trivial, ?_⟩⟩
    · rw [Int.floor_le_iff]
      linarith
    · have e1 : ((⌊(w : ℚ) / ((nX : ℚ) / (Y : ℚ)) + 1/2⌋ : ℤ) : ℚ) * (nX : ℚ)
          ≤ ((w : ℚ) / ((nX : ℚ) / (Y : ℚ)) + 1/2) * (nX : ℚ) :=
        mul_le_mul_of_nonneg_right hfl1 hnXQ.le
      have e2 : ((w : ℚ) / ((nX : ℚ) / (Y : ℚ)) - 1/2) * (nX : ℚ)
          ≤ ((⌊(w : ℚ) / ((nX : ℚ) / (Y : ℚ)) + 1/2⌋ : ℤ) : ℚ) * (nX : ℚ) :=
        mul_le_mul_of_nonneg_right hfl2 hnXQ.le
      have e3 : ((w : ℚ) / ((nX : ℚ) / (Y : ℚ)) + 1/2) * (nX : ℚ)
          = (w : ℚ) * (Y : ℚ) + (nX : ℚ) / 2 := by
        rw [add_mul, hv']
        ring
      have e4 : ((w : ℚ) / ((nX : ℚ) / (Y : ℚ)) - 1/2) * (nX : ℚ)
          = (w : ℚ) * (Y : ℚ) - (nX : ℚ) / 2 := by
        rw [sub_mul, hv']
        ring
      rw [abs_sub_le_iff]
      constructor <;> linarith
  · rw [if_neg hcase]
    push_neg at hcase
    simp only [_sizeHeight, roundQ]
    have hu' : (h : ℚ) * ((nX : ℚ) / (Y : ℚ)) * (Y : ℚ) = (h : ℚ) * (nX : ℚ) := by
      field_simp
    have hule : (h : ℚ) * ((nX : ℚ) / (Y : ℚ)) ≤ (w : ℚ) := by
      have h1 : (h : ℚ) * ((nX : ℚ) / (Y : ℚ)) ≤ (h : ℚ) * ((w : ℚ) / (h : ℚ)) :=
        mul_le_mul_of_nonneg_left hcase hhQ.le
      have h2 : (h : ℚ) * ((w : ℚ) / (h : ℚ)) = (w : ℚ) := by field_simp
      linarith
    have hfl1 : ((⌊(h : ℚ) * ((nX : ℚ) / (Y : ℚ)) + 1/2⌋ : ℤ) : ℚ)
        ≤ (h : ℚ) * ((nX : ℚ) / (Y : ℚ)) + 1/2 := Int.floor_le _
    have hfl2 : (h : ℚ) * ((nX : ℚ) / (Y : ℚ)) - 1/2
        ≤ ((⌊(h : ℚ) * ((nX : ℚ) / (Y : ℚ)) + 1/2⌋ : ℤ) : ℚ) := by
      have hsub := Int.sub_one_lt_floor ((h : ℚ) * ((nX : ℚ) / (Y : ℚ)) + 1/2)
      linarith
    refine ⟨?_, le_refl h, Or.inr ⟨trivial, ?_⟩⟩
    · rw [Int.floor_le_iff]
      linarith
    · have e1 : ((⌊(h : ℚ) * ((nX : ℚ) / (Y : ℚ)) + 1/2⌋ : ℤ) : ℚ) * (Y : ℚ)
          ≤ ((h : ℚ) * ((nX : ℚ) / (Y : ℚ)) + 1/2) * (Y : ℚ) :=
        mul_le_mul_of_nonneg_right hfl1 hYQ.le
      have e2 : ((h : ℚ) * ((nX : ℚ) / (Y : ℚ)) - 1/2) * (Y : ℚ)
          ≤ ((⌊(h : ℚ) * ((nX : ℚ) / (Y : ℚ)) + 1/2⌋ : ℤ) : ℚ) * (Y : ℚ) :=
        mul_le_mul_of_nonneg_right hfl2 hYQ.le
      have e3 : ((h : ℚ) * ((nX : ℚ) / (Y : ℚ)) + 1/2) * (Y : ℚ)
          = (h : ℚ) * (nX : ℚ) + (Y : ℚ) / 2 := by
        rw [add_mul, hu']
        ring
      have e4 : ((h : ℚ) * ((nX : ℚ) / (Y : ℚ)) - 1/2) * (Y : ℚ)
          = (h : ℚ) * (nX : ℚ) - (Y : ℚ) / 2 := by
        rw [sub_mul, hu']
        ring
      rw [abs_sub_le_iff]
      constructor <;> linarith

/-- C7: for positive source dimensions, positive font aspect and positive
width/height bounds, `sizeRect` never exceeds either bound, and it preserves
the normalized aspect ratio (that of `sizeNormal`) to within one pixel: the
binding coordinate is met exactly and the other coordinate differs from the
exactly-proportional value by at most one pixel (the bound is stated
cross-multiplied to avoid division by a possibly zero normalized width). -/
theorem claim_C7_sizeRect_bounds (X Y w h : ℤ) (fa : ℚ)
    (hX : 0 < X) (hY : 0 < Y) (hw : 0 < w) (hh : 0 < h) (hfa : 0 < fa) :
    (sizeRect X Y w h fa).1 ≤ w ∧ (sizeRect X Y w h fa).2 ≤ h ∧
    (((sizeRect X Y w h fa).1 = w ∧
        |((sizeRect X Y w h fa).2 : ℚ) * (((sizeNormal X Y fa).1 : ℤ) : ℚ)
            - (w : ℚ) * (Y : ℚ)| ≤ (((sizeNormal X Y fa).1 : ℤ) : ℚ)) ∨
     ((sizeRect X Y w h fa).2 = h ∧
        |((sizeRect X Y w h fa).1 : ℚ) * (Y : ℚ)
            - (h : ℚ) * (((sizeNormal X Y fa).1 : ℤ) : ℚ)| ≤ (Y : ℚ))) := by
  have hw' : ¬ (w ≤ 0) := not_le.mpr hw
  have hh' : ¬ (h ≤ 0) := not_le.mpr hh
  have hAll : sizeRect X Y w h fa =
      if (w : ℚ) / (h : ℚ) < (((sizeNormal X Y fa).1 : ℤ) : ℚ) / (Y : ℚ)
      then _sizeWidth (sizeNormal X Y fa).1 Y w
      else _sizeHeight (sizeNormal X Y fa).1 Y h := by
    simp only [sizeRect]
    rw [if_neg (fun hc => hw' hc.1), if_neg hw', if_neg hh']
    rfl
  rw [hAll]
  exact sizeRect_main (sizeNormal X Y fa).1 Y w h hY hw hh

/-- C7 (witness): a 100×50 source at font aspect 1/2 normalizes to 200×50;
bounded by 40×20 the result is width-bound and exactly proportional. -/
theorem claim_C7_sizeRect_bounds_witness :
    (0 : ℤ) < 100 ∧ (0 : ℚ) < 1/2 ∧
    ((sizeRect 100 50 40 20 (1/2)).1 ≤ 40 ∧ (sizeRect 100 50 40 20 (1/2)).2 ≤ 20 ∧
    (((sizeRect 100 50 40 20 (1/2)).1 = 40 ∧
        |((sizeRect 100 50 40 20 (1/2)).2 : ℚ) * (((sizeNormal 100 50 (1/2)).1 : ℤ) : ℚ)
            - (40 : ℚ) * ((50 : ℤ) : ℚ)| ≤ (((sizeNormal 100 50 (1/2)).1 : ℤ) : ℚ)) ∨
     ((sizeRect 100 50 40 20 (1/2)).2 = 20 ∧
        |((sizeRect 100 50 40 20 (1/2)).1 : ℚ) * ((50 : ℤ) : ℚ)
            - (20 : ℚ) * (((sizeNormal 100 50 (1/2)).1 : ℤ) : ℚ)| ≤ ((50 : ℤ) : ℚ)))) :=
  ⟨by norm_num, by norm_num,
    claim_C7_sizeRect_bounds 100 50 40 20 (1/2)
      (by norm_num) (by norm_num) (by norm_num) (by norm_num) (by norm_num)⟩

end Img2Ansi
